import Mathlib

/-!
# Pitch-movement dashboard: shallow embedding and verification

A shallow embedding of the state model of `src/CBC.py`: the Dash callback
`update_graph`, its button-dispatch chain over the three stores (pitch
records, freehand drawings, shaded circles), the per-pitch-type
mean/variance computation, the figure construction, and the relayout
drawing-event handling.

Numbers are modelled as exact rationals (`ℚ`); pandas' NaN variance of a
singleton group is modelled as `Option ℚ` with `none` for a group of size
at most one.  The figure's variance-circle coordinates involve `np.sqrt`
and therefore live in `ℝ`.  A Python exception (the `relayoutData['shapes'][-1]`
indexing on an empty shapes list) is modelled as `none` of an `Option`
result.
-/

namespace CBC

/-- The fixed pitch-type catalog (`pitch_types` in the source). -/
def pitch_types : List String :=
  ["Fastball", "Changeup", "Curveball", "Slider", "Sinker",
   "Splitter", "Cutter", "Circle Change", "Knuckle Curve", "Slurve",
   "Sweeper", "Knuckleball"]

/-- The pitch-type → color dictionary (`pitch_colors` in the source),
as an association list in the dictionary's insertion order. -/
def pitch_colors : List (String × String) :=
  [("Fastball", "red"), ("Changeup", "lime"), ("Curveball", "blue"),
   ("Slider", "gold"), ("Sinker", "orange"), ("Splitter", "teal"),
   ("Cutter", "saddlebrown"), ("Sweeper", "goldenrod"),
   ("Circle Change", "purple"), ("Knuckle Curve", "pink"),
   ("Slurve", "cyan"), ("Knuckleball", "gray")]

/-- One row of the pitch DataFrame: columns
`'Horizontal (IN)', 'Vertical (IN)', 'Velo (MPH)', 'Pitch', 'Pitch#'`. -/
structure PitchRecord where
  horizontal : ℚ
  vertical : ℚ
  velo : ℚ
  pitch : String
  pitchNo : ℕ
deriving DecidableEq, Repr

/-- The `line` sub-dict a freehand shape is stamped with:
`{'color': draw_color, 'width': 2}`. -/
structure DrawLine where
  color : String
  width : ℚ
deriving DecidableEq, Repr

/-- A freehand shape as held in `drawing-store`: opaque path geometry plus
its `line` dict. -/
structure Shape where
  geometry : String
  line : DrawLine
deriving DecidableEq, Repr

/-- A shaded circle as built by the `add-shaded-circle` branch
(lines 193–203 of the source). -/
structure ShadedCircle where
  x0 : ℚ
  x1 : ℚ
  y0 : ℚ
  y1 : ℚ
  lineColor : String
  lineWidth : ℚ
  fillcolor : String
  opacity : ℚ
  layer : String
deriving DecidableEq, Repr

/-- One entry of `variance_data` (lines 209–221): per pitch type, the
sample variances (NaN as `none`) and means of the two break columns. -/
structure VarianceRow where
  pitch : String
  horizontalVariance : Option ℚ
  verticalVariance : Option ℚ
  verticalMean : ℚ
  horizontalMean : ℚ
deriving DecidableEq, Repr

/-- `pandas.Series.mean`: sum divided by length. -/
def listMean (xs : List ℚ) : ℚ := xs.sum / xs.length

/-- `pandas.Series.var` with the default `ddof=1`: the sample variance
with N−1 denominator; NaN (here `none`) when the series has at most one
element. -/
def sampleVariance (xs : List ℚ) : Option ℚ :=
  if xs.length ≤ 1 then none
  else some (((xs.map (fun x => (x - listMean xs) ^ 2)).sum) / (xs.length - 1 : ℕ))

/-- `pandas.Series.unique`: the distinct values in first-occurrence order. -/
def uniqueFirst : List String → List String
  | [] => []
  | p :: ps => p :: uniqueFirst (ps.filter (fun q => q ≠ p))
termination_by l => l.length
decreasing_by
  simp only [List.length_cons]
  exact Nat.lt_succ_of_le (List.length_filter_le _ _)

/-- The loop body of lines 211–221: for one pitch type, filter the
DataFrame to that type and record variances and means of both break
columns. -/
def mkVarianceRow (data : List PitchRecord) (pitch : String) : VarianceRow :=
  let pitch_data := data.filter (fun r => r.pitch = pitch)
  { pitch := pitch
    horizontalVariance := sampleVariance (pitch_data.map (fun r => r.horizontal))
    verticalVariance := sampleVariance (pitch_data.map (fun r => r.vertical))
    verticalMean := listMean (pitch_data.map (fun r => r.vertical))
    horizontalMean := listMean (pitch_data.map (fun r => r.horizontal)) }

/-- Lines 209–221: `variance_data`, one row per value of
`data['Pitch'].unique()`. -/
def variance_data (data : List PitchRecord) : List VarianceRow :=
  (uniqueFirst (data.map (fun r => r.pitch))).map (mkVarianceRow data)

/-- The three session stores round-tripped through the hidden divs:
`data-store`, `drawing-store`, `shaded-circles-store`. -/
structure Stores where
  data : List PitchRecord
  drawings : List Shape
  shadedCircles : List ShadedCircle
deriving DecidableEq, Repr

/-- The initial store contents: no data (`data-store` is `None`, read as an
empty DataFrame), `drawing-store` and `shaded-circles-store` start as `[]`. -/
def initialStores : Stores := { data := [], drawings := [], shadedCircles := [] }

/-- One invocation of the callback: the triggering prop (`button_id`), all
`Input`/`State` values at that moment.  `relayout_shapes` is
`relayoutData['shapes']` when `relayoutData` is truthy and has a `'shapes'`
key, `none` otherwise. -/
structure Invocation where
  button_id : Option String
  add_clicks : ℕ
  delete_recent_clicks : ℕ
  delete_all_clicks : ℕ
  reset_axes_clicks : ℕ
  delete_last_drawing_clicks : ℕ
  add_shaded_circle_clicks : ℕ
  delete_most_recent_shaded_circle_clicks : ℕ
  athlete_name : String
  horizontal_movement : ℚ
  vertical_movement : ℚ
  pitch_speed : ℚ
  pitch_type : String
  draw_color : String
  circle_x : ℚ
  circle_y : ℚ
  circle_radius : ℚ
  relayout_shapes : Option (List Shape)
deriving DecidableEq, Repr

/-- The `if`/`elif` dispatch chain of lines 172–207.  The parameters
`vertical` and `horizontal` carry the names from the Python signature: the
callback registers `State('horizontal-movement')` before
`State('vertical-movement')`, so positionally `vertical` receives the
horizontal-movement field and `horizontal` the vertical-movement field;
the add-point branch then writes `'Horizontal (IN)': [vertical]` and
`'Vertical (IN)': [horizontal]`, so the two swaps cancel. -/
def buttonStep (button_id : Option String)
    (add_clicks delete_recent_clicks delete_all_clicks
      delete_last_drawing_clicks add_shaded_circle_clicks
      delete_most_recent_shaded_circle_clicks : ℕ)
    (vertical horizontal speed : ℚ) (pitch_type draw_color : String)
    (circle_x circle_y circle_radius : ℚ)
    (data : List PitchRecord) (drawing_store : List Shape)
    (shaded_circles_store : List ShadedCircle) :
    List PitchRecord × List Shape × List ShadedCircle :=
  if button_id = some "add-point" ∧ 0 < add_clicks then
    (data ++ [{ horizontal := vertical, vertical := horizontal, velo := speed,
                pitch := pitch_type, pitchNo := data.length + 1 }],
     drawing_store, shaded_circles_store)
  else if button_id = some "delete-recent" ∧ 0 < delete_recent_clicks ∧ data ≠ [] then
    (data.dropLast, drawing_store, shaded_circles_store)
  else if button_id = some "delete-all" ∧ 0 < delete_all_clicks then
    ([], drawing_store, shaded_circles_store)
  else if button_id = some "delete-last-drawing" ∧ 0 < delete_last_drawing_clicks ∧
      drawing_store ≠ [] then
    (data, drawing_store.dropLast, shaded_circles_store)
  else if button_id = some "add-shaded-circle" ∧ 0 < add_shaded_circle_clicks then
    (data, drawing_store,
     shaded_circles_store ++
       [{ x0 := circle_x - circle_radius, x1 := circle_x + circle_radius,
          y0 := circle_y - circle_radius, y1 := circle_y + circle_radius,
          lineColor := draw_color, lineWidth := 2, fillcolor := draw_color,
          opacity := 3 / 10, layer := "below" }])
  else if button_id = some "delete-most-recent-shaded-circle" ∧
      0 < delete_most_recent_shaded_circle_clicks ∧ shaded_circles_store ≠ [] then
    (data, drawing_store, shaded_circles_store.dropLast)
  else
    (data, drawing_store, shaded_circles_store)

/-- Line 287: `new_shape['line'] = {'color': draw_color, 'width': 2}`. -/
def recolorShape (draw_color : String) (s : Shape) : Shape :=
  { s with line := { color := draw_color, width := 2 } }

/-- Lines 283–289: whenever `relayoutData` holds a `'shapes'` list, its
last shape is re-colored to the selected draw color and appended to the
drawing store.  `relayoutData['shapes'][-1]` on an empty list raises
`IndexError`, modelled as `none`. -/
def handleDrawing (relayoutData : Option (List Shape)) (draw_color : String)
    (drawing_store : List Shape) : Option (List Shape) :=
  match relayoutData with
  | none => some drawing_store
  | some shapes =>
    match shapes.getLast? with
    | none => none
    | some new_shape => some (drawing_store ++ [recolorShape draw_color new_shape])

/-- The store mutations of one `update_graph` call (lines 158–207 and
283–289): the initial-DataFrame default, the button dispatch, then the
drawing-event handling.  Returns the three stores the callback writes
back, or `none` on the `IndexError` path. -/
def update_graph_stores
    (add_clicks delete_recent_clicks delete_all_clicks _reset_axes_clicks : ℕ)
    (relayoutData : Option (List Shape))
    (delete_last_drawing_clicks add_shaded_circle_clicks
      delete_most_recent_shaded_circle_clicks : ℕ)
    (_athlete_name : String)
    (vertical horizontal speed : ℚ) (pitch_type draw_color : String)
    (circle_x circle_y circle_radius : ℚ)
    (data_store : Option (List PitchRecord)) (drawing_store : List Shape)
    (shaded_circles_store : List ShadedCircle)
    (button_id : Option String) :
    Option (List PitchRecord × List Shape × List ShadedCircle) :=
  let data := data_store.getD []
  let s1 := buttonStep button_id add_clicks delete_recent_clicks delete_all_clicks
    delete_last_drawing_clicks add_shaded_circle_clicks
    delete_most_recent_shaded_circle_clicks vertical horizontal speed pitch_type
    draw_color circle_x circle_y circle_radius data drawing_store shaded_circles_store
  (handleDrawing relayoutData draw_color s1.2.1).map (fun d2 => (s1.1, d2, s1.2.2))

/-- One callback invocation acting on the stores.  The positional argument
order mirrors the callback registration: `State('horizontal-movement')`
feeds the parameter named `vertical` and `State('vertical-movement')` the
parameter named `horizontal`. -/
def stepStores (inv : Invocation) (s : Stores) : Option Stores :=
  (update_graph_stores inv.add_clicks inv.delete_recent_clicks inv.delete_all_clicks
      inv.reset_axes_clicks inv.relayout_shapes inv.delete_last_drawing_clicks
      inv.add_shaded_circle_clicks inv.delete_most_recent_shaded_circle_clicks
      inv.athlete_name inv.horizontal_movement inv.vertical_movement inv.pitch_speed
      inv.pitch_type inv.draw_color inv.circle_x inv.circle_y inv.circle_radius
      (some s.data) s.drawings s.shadedCircles inv.button_id).map
    (fun t => { data := t.1, drawings := t.2.1, shadedCircles := t.2.2 })

/-- A sequence of callback invocations, stopping at the first exception. -/
def run : List Invocation → Stores → Option Stores
  | [], s => some s
  | i :: is, s => (stepStores i s).bind (run is)

/-- One scatter point as produced by `px.scatter` (lines 224–228):
position from the break columns, color from `color='Pitch'` with
`color_discrete_map=pitch_colors`, hover data `['Velo (MPH)', 'Pitch',
'Pitch#']`.  A pitch type absent from the dictionary has no mapped color
(`none`). -/
structure Point where
  x : ℚ
  y : ℚ
  color : Option String
  hover_velo : ℚ
  hover_pitch : String
  hover_pitchNo : ℕ
deriving DecidableEq, Repr

/-- A variance circle as added by `fig.add_shape` (lines 272–280):
corner coordinates involve `np.sqrt` and live in `ℝ`; the stroke is the
pitch color with `dash='dot'`; no `fillcolor` is passed (unfilled). -/
structure VarianceShape where
  x0 : ℝ
  x1 : ℝ
  y0 : ℝ
  y1 : ℝ
  lineColor : Option String
  lineWidth : ℚ
  lineDash : String
  fillcolor : Option String
  layer : String

/-- The figure as far as the model describes it: title, scatter points,
variance circles, then the two annotation layers (drawings added first,
shaded circles last). -/
structure Figure where
  title : String
  points : List Point
  variance_shapes : List VarianceShape
  drawing_shapes : List Shape
  shaded_circle_shapes : List ShadedCircle

/-- One row of the scatter: `x='Horizontal (IN)'`, `y='Vertical (IN)'`,
color keyed by `'Pitch'` through `pitch_colors`, hover data velocity,
pitch and sequence number. -/
def mkPoint (r : PitchRecord) : Point :=
  { x := r.horizontal, y := r.vertical, color := pitch_colors.lookup r.pitch,
    hover_velo := r.velo, hover_pitch := r.pitch, hover_pitchNo := r.pitchNo }

/-- Lines 266–280: a variance row yields a dotted unfilled circle when
neither variance is NaN, and nothing otherwise. -/
noncomputable def toVarianceShape (v : VarianceRow) : Option VarianceShape :=
  match v.horizontalVariance, v.verticalVariance with
  | some hv, some vv =>
    some { x0 := (v.horizontalMean : ℝ) - Real.sqrt (hv : ℝ)
           x1 := (v.horizontalMean : ℝ) + Real.sqrt (hv : ℝ)
           y0 := (v.verticalMean : ℝ) - Real.sqrt (vv : ℝ)
           y1 := (v.verticalMean : ℝ) + Real.sqrt (vv : ℝ)
           lineColor := pitch_colors.lookup v.pitch
           lineWidth := 2
           lineDash := "dot"
           fillcolor := none
           layer := "below" }
  | _, _ => none

/-- Lines 224–297: the figure built from the post-mutation stores.  The
title falls back to the default when `athlete_name` is falsy (empty). -/
noncomputable def buildFigure (athlete_name : String) (s : Stores) : Figure :=
  { title := if athlete_name = "" then "Pitch Movement Visualization"
             else athlete_name ++ " Pitch Movement Visualization"
    points := s.data.map mkPoint
    variance_shapes := (variance_data s.data).filterMap toVarianceShape
    drawing_shapes := s.drawings
    shaded_circle_shapes := s.shadedCircles }

/-- The full callback: mutate the stores, then build the figure from the
results; the figure's drawing layer reflects the relayout append because
lines 291–293 add the shapes only after lines 283–289 ran. -/
noncomputable def update_graph (inv : Invocation) (s : Stores) :
    Option (Figure × Stores) :=
  (stepStores inv s).map (fun s2 => (buildFigure inv.athlete_name s2, s2))

/-- The button dispatch of one invocation, bundled on `Stores` exactly as
`stepStores` invokes `buttonStep`. -/
def buttonStepStores (inv : Invocation) (s : Stores) : Stores :=
  let t := buttonStep inv.button_id inv.add_clicks inv.delete_recent_clicks
    inv.delete_all_clicks inv.delete_last_drawing_clicks inv.add_shaded_circle_clicks
    inv.delete_most_recent_shaded_circle_clicks inv.horizontal_movement
    inv.vertical_movement inv.pitch_speed inv.pitch_type inv.draw_color
    inv.circle_x inv.circle_y inv.circle_radius s.data s.drawings s.shadedCircles
  { data := t.1, drawings := t.2.1, shadedCircles := t.2.2 }

/-- The sequence-number invariant of the live pitch store: the `Pitch#`
column reads exactly `1..N`. -/
def seqNumbersOK (data : List PitchRecord) : Prop :=
  data.map (fun r => r.pitchNo) = List.range' 1 data.length

/-! ## Helper lemmas -/

theorem mem_uniqueFirst {a : String} : ∀ {l : List String}, a ∈ uniqueFirst l ↔ a ∈ l
  | [] => by simp [uniqueFirst]
  | p :: ps => by
    rw [uniqueFirst]
    by_cases hap : a = p
    · subst hap; simp
    · simp only [List.mem_cons, hap, false_or]
      rw [mem_uniqueFirst (l := ps.filter (fun q => q ≠ p))]
      simp [List.mem_filter, hap]
termination_by l => l.length
decreasing_by
  simp only [List.length_cons]
  exact Nat.lt_succ_of_le (List.length_filter_le _ _)

theorem filterMap_filter_of_none {α β : Type _} (f : α → Option β) (p : α → Bool) :
    ∀ (l : List α), (∀ x ∈ l, p x = false → f x = none) →
      l.filterMap f = (l.filter p).filterMap f
  | [], _ => rfl
  | x :: xs, h => by
    have hxs := filterMap_filter_of_none f p xs (fun y hy => h y (List.mem_cons_of_mem _ hy))
    cases hpx : p x with
    | false =>
      have : f x = none := h x (List.mem_cons_self x xs) hpx
      simp [List.filterMap_cons, List.filter_cons, hpx, this, hxs]
    | true =>
      simp only [List.filterMap_cons, List.filter_cons, hpx, if_true]
      rw [hxs]

theorem mem_variance_data {data : List PitchRecord} {v : VarianceRow}
    (h : v ∈ variance_data data) :
    v = mkVarianceRow data v.pitch ∧ (∃ r ∈ data, r.pitch = v.pitch) := by
  obtain ⟨p, hp, rfl⟩ := List.mem_map.mp h
  refine ⟨rfl, ?_⟩
  have := mem_uniqueFirst.mp hp
  obtain ⟨r, hr, hrp⟩ := List.mem_map.mp this
  exact ⟨r, hr, hrp⟩

theorem variance_data_covers {data : List PitchRecord} {r : PitchRecord}
    (h : r ∈ data) : mkVarianceRow data r.pitch ∈ variance_data data := by
  refine List.mem_map.mpr ⟨r.pitch, ?_, rfl⟩
  exact mem_uniqueFirst.mpr (List.mem_map.mpr ⟨r, h, rfl⟩)

/-- `stepStores` factored through `buttonStepStores` and `handleDrawing`. -/
theorem stepStores_eq (inv : Invocation) (s : Stores) :
    stepStores inv s =
      (handleDrawing inv.relayout_shapes inv.draw_color
          (buttonStepStores inv s).drawings).map
        (fun d2 => { data := (buttonStepStores inv s).data, drawings := d2,
                     shadedCircles := (buttonStepStores inv s).shadedCircles }) := by
  unfold stepStores update_graph_stores buttonStepStores
  simp only [Option.getD_some]
  cases h : handleDrawing inv.relayout_shapes inv.draw_color _ <;> simp [h]

theorem buttonStep_data_cases (button_id : Option String)
    (a b c d e f : ℕ) (vert horiz speed : ℚ) (pt dc : String) (cx cy cr : ℚ)
    (data : List PitchRecord) (dr : List Shape) (sc : List ShadedCircle) :
    (buttonStep button_id a b c d e f vert horiz speed pt dc cx cy cr data dr sc).1 =
        data ++ [{ horizontal := vert, vertical := horiz, velo := speed,
                   pitch := pt, pitchNo := data.length + 1 }] ∨
      (buttonStep button_id a b c d e f vert horiz speed pt dc cx cy cr data dr sc).1 =
        data.dropLast ∨
      (buttonStep button_id a b c d e f vert horiz speed pt dc cx cy cr data dr sc).1 = [] ∨
      (buttonStep button_id a b c d e f vert horiz speed pt dc cx cy cr data dr sc).1 =
        data := by
  unfold buttonStep
  split_ifs <;> simp

theorem handleDrawing_none (dc : String) (ds : List Shape) :
    handleDrawing none dc ds = some ds := rfl

theorem handleDrawing_getLast_none {shapes : List Shape} (dc : String) (ds : List Shape)
    (hl : shapes.getLast? = none) : handleDrawing (some shapes) dc ds = none := by
  show (match shapes.getLast? with
    | none => none
    | some new_shape => some (ds ++ [recolorShape dc new_shape])) = none
  rw [hl]

theorem handleDrawing_getLast_some {shapes : List Shape} {sh : Shape}
    (dc : String) (ds : List Shape) (hl : shapes.getLast? = some sh) :
    handleDrawing (some shapes) dc ds = some (ds ++ [recolorShape dc sh]) := by
  show (match shapes.getLast? with
    | none => none
    | some new_shape => some (ds ++ [recolorShape dc new_shape])) = _
  rw [hl]

theorem buttonStep_drawings_cases (button_id : Option String)
    (a b c d e f : ℕ) (vert horiz speed : ℚ) (pt dc : String) (cx cy cr : ℚ)
    (data : List PitchRecord) (dr : List Shape) (sc : List ShadedCircle) :
    (buttonStep button_id a b c d e f vert horiz speed pt dc cx cy cr data dr sc).2.1 = dr ∨
      (buttonStep button_id a b c d e f vert horiz speed pt dc cx cy cr data dr sc).2.1 =
        dr.dropLast := by
  unfold buttonStep
  split_ifs <;> simp

/-! ## Spec-side statistics definitions (for the refinement claim C1) -/

/-- The spec's sample mean of a list of values: the sum divided by the
count. -/
def specMean (xs : List ℚ) : ℚ := xs.sum / xs.length

/-- The spec's sample variance with N−1 denominator (conventional
unbiased sample variance), as a total formula meant for lists of at least
two values. -/
def specSampleVariance (xs : List ℚ) : ℚ :=
  ((xs.map (fun x => (x - specMean xs) ^ 2)).sum) / (xs.length - 1 : ℕ)

/-! ## Claims -/

/-- C1: the statistics engine groups records by pitch type and computes,
for each group, the sample mean and the N−1 sample variance of horizontal
and of vertical break independently: every pitch type present in the data
has a row of `variance_data`, and every row of `variance_data` carries
exactly the spec's sample mean, and (for groups of at least two records)
exactly the spec's N−1 sample variance, of that pitch type's horizontal
and vertical break values.  The witness instantiates the spec's
`[(1,2), (3,4)]` example: horizontal variance 2 and horizontal mean 2. -/
theorem statistics_engine_grouped_mean_and_sample_variance :
    (∀ (data : List PitchRecord) (r : PitchRecord), r ∈ data →
        ∃ v ∈ variance_data data, v.pitch = r.pitch) ∧
    (∀ (data : List PitchRecord) (v : VarianceRow), v ∈ variance_data data →
      v.horizontalMean =
        specMean ((data.filter (fun r => r.pitch = v.pitch)).map (fun r => r.horizontal)) ∧
      v.verticalMean =
        specMean ((data.filter (fun r => r.pitch = v.pitch)).map (fun r => r.vertical)) ∧
      (2 ≤ (data.filter (fun r => r.pitch = v.pitch)).length →
        v.horizontalVariance = some (specSampleVariance
          ((data.filter (fun r => r.pitch = v.pitch)).map (fun r => r.horizontal))) ∧
        v.verticalVariance = some (specSampleVariance
          ((data.filter (fun r => r.pitch = v.pitch)).map (fun r => r.vertical))))) := by
  constructor
  · intro data r hr
    exact ⟨mkVarianceRow data r.pitch, variance_data_covers hr, rfl⟩
  · intro data v hv
    obtain ⟨p, hp, rfl⟩ := List.mem_map.mp hv
    have hpitch : (mkVarianceRow data p).pitch = p := rfl
    rw [hpitch]
    set g := data.filter (fun r => r.pitch = p) with hg
    refine ⟨rfl, rfl, fun hlen => ?_⟩
    have h1 : ¬ ((g.map (fun r => r.horizontal)).length ≤ 1) := by
      rw [List.length_map]; omega
    have h2 : ¬ ((g.map (fun r => r.vertical)).length ≤ 1) := by
      rw [List.length_map]; omega
    constructor
    · show sampleVariance (g.map (fun r => r.horizontal)) = _
      rw [sampleVariance, if_neg h1]; rfl
    · show sampleVariance (g.map (fun r => r.vertical)) = _
      rw [sampleVariance, if_neg h2]; rfl

/-- The first record of the C1 witness store: breaks `(1,2)`. -/
def c1r1 : PitchRecord :=
  { horizontal := 1, vertical := 2, velo := 90, pitch := "Fastball", pitchNo := 1 }

/-- The second record of the C1 witness store: breaks `(3,4)`. -/
def c1r2 : PitchRecord :=
  { horizontal := 3, vertical := 4, velo := 91, pitch := "Fastball", pitchNo := 2 }

/-- The pitch store used to witness C1: one pitch type with break records
exactly `[(1,2), (3,4)]`. -/
def c1data : List PitchRecord := [c1r1, c1r2]

/-- C1 witness: for records `[(1,2), (3,4)]` the engine's row has
horizontal sample variance 2 and horizontal mean 2. -/
theorem statistics_engine_grouped_mean_and_sample_variance_witness :
    mkVarianceRow c1data "Fastball" ∈ variance_data c1data ∧
    (mkVarianceRow c1data "Fastball").horizontalVariance = some 2 ∧
    (mkVarianceRow c1data "Fastball").horizontalMean = 2 := by
  have h1 : c1r1 ∈ c1data := by simp [c1data]
  have hmem : mkVarianceRow c1data "Fastball" ∈ variance_data c1data := by
    have := @variance_data_covers c1data c1r1 h1
    simpa [c1r1] using this
  have h := statistics_engine_grouped_mean_and_sample_variance.2 c1data
    (mkVarianceRow c1data "Fastball") hmem
  have hfil : c1data.filter
      (fun r => r.pitch = (mkVarianceRow c1data "Fastball").pitch) = c1data := by
    simp [c1data, mkVarianceRow, c1r1, c1r2]
  refine ⟨hmem, ?_, ?_⟩
  · have hvar := (h.2.2 (by rw [hfil]; simp [c1data])).1
    rw [hfil] at hvar
    rw [hvar]
    norm_num [specSampleVariance, specMean, c1data, c1r1, c1r2]
  · have hmean := h.1
    rw [hfil] at hmean
    rw [hmean]
    norm_num [specMean, c1data, c1r1, c1r2]

theorem update_graph_some {inv : Invocation} {s : Stores} {fig : Figure} {s' : Stores}
    (h : update_graph inv s = some (fig, s')) :
    stepStores inv s = some s' ∧ fig = buildFigure inv.athlete_name s' := by
  unfold update_graph at h
  obtain ⟨s2, h1, h2⟩ := Option.map_eq_some'.mp h
  injection h2 with hf hs
  subst hs
  exact ⟨h1, hf.symm⟩

theorem toVarianceShape_eq_none {v : VarianceRow} (h : v.horizontalVariance = none) :
    toVarianceShape v = none := by
  rcases v with ⟨q, hvar, vvar, vm, hm⟩
  simp only at h
  subst h
  cases vvar <;> rfl

/-- An invocation with no triggering prop, zeroed click counters and a
relayout payload without shapes: the callback fires but mutates nothing. -/
def idleInvocation : Invocation :=
  { button_id := none, add_clicks := 0, delete_recent_clicks := 0,
    delete_all_clicks := 0, reset_axes_clicks := 0, delete_last_drawing_clicks := 0,
    add_shaded_circle_clicks := 0, delete_most_recent_shaded_circle_clicks := 0,
    athlete_name := "", horizontal_movement := 0, vertical_movement := 0,
    pitch_speed := 0, pitch_type := "Fastball", draw_color := "red",
    circle_x := 0, circle_y := 0, circle_radius := 0, relayout_shapes := none }

/-- C2: a pitch type with exactly one record contributes no variance
circle to the built scene (its variance is NaN), but its record still
appears as a scatter point: the variance-shape list equals the one built
from the rows of all other pitch types, and the record's point is in
`points`. -/
theorem singleton_pitch_type_excluded_from_circles_but_plotted
    (inv : Invocation) (s : Stores) (fig : Figure) (s' : Stores)
    (p : String) (r : PitchRecord)
    (hup : update_graph inv s = some (fig, s'))
    (hone : s'.data.filter (fun x => x.pitch = p) = [r]) :
    fig.variance_shapes =
      ((variance_data s'.data).filter (fun v => v.pitch ≠ p)).filterMap toVarianceShape ∧
    ({ x := r.horizontal, y := r.vertical, color := pitch_colors.lookup r.pitch,
       hover_velo := r.velo, hover_pitch := r.pitch, hover_pitchNo := r.pitchNo } :
        Point) ∈ fig.points := by
  obtain ⟨hstep, rfl⟩ := update_graph_some hup
  constructor
  · show (variance_data s'.data).filterMap toVarianceShape = _
    apply filterMap_filter_of_none
    intro v hv hfalse
    have hvp : v.pitch = p := by simpa using hfalse
    obtain ⟨hveq, -⟩ := mem_variance_data hv
    have hvar_none : v.horizontalVariance = none := by
      rw [hveq]
      show sampleVariance
        ((s'.data.filter (fun x => x.pitch = v.pitch)).map (fun x => x.horizontal)) = none
      rw [hvp, hone]
      rfl
    exact toVarianceShape_eq_none hvar_none
  · have hr : r ∈ s'.data := by
      have hm : r ∈ s'.data.filter (fun x => x.pitch = p) := by rw [hone]; simp
      exact (List.mem_filter.mp hm).1
    show _ ∈ s'.data.map mkPoint
    exact List.mem_map.mpr ⟨r, hr, rfl⟩

/-- The single record of the C2 witness store. -/
def c2rec : PitchRecord :=
  { horizontal := 5, vertical := 6, velo := 88, pitch := "Curveball", pitchNo := 1 }

/-- The C2 witness store: one pitch type with exactly one record. -/
def c2store : Stores := { data := [c2rec], drawings := [], shadedCircles := [] }

/-- C2 witness: with a single Curveball record, the idle callback yields a
scene whose variance shapes exclude the Curveball row while the record's
point is plotted. -/
theorem singleton_pitch_type_excluded_from_circles_but_plotted_witness :
    update_graph idleInvocation c2store = some (buildFigure "" c2store, c2store) ∧
    (buildFigure "" c2store).variance_shapes =
      ((variance_data c2store.data).filter (fun v => v.pitch ≠ "Curveball")).filterMap
        toVarianceShape ∧
    ({ x := c2rec.horizontal, y := c2rec.vertical,
       color := pitch_colors.lookup c2rec.pitch, hover_velo := c2rec.velo,
       hover_pitch := c2rec.pitch, hover_pitchNo := c2rec.pitchNo } : Point) ∈
      (buildFigure "" c2store).points := by
  have hstep : stepStores idleInvocation c2store = some c2store := rfl
  have hup : update_graph idleInvocation c2store =
      some (buildFigure "" c2store, c2store) := by
    unfold update_graph
    rw [hstep]
    rfl
  have hone : c2store.data.filter (fun x => x.pitch = "Curveball") = [c2rec] := rfl
  have h := singleton_pitch_type_excluded_from_circles_but_plotted idleInvocation
    c2store (buildFigure "" c2store) c2store "Curveball" c2rec hup hone
  exact ⟨hup, h.1, h.2⟩

/-- C3: the built scene has exactly one point per record of the resulting
store, positioned at that record's horizontal and vertical break, colored
through the pitch-type color map, with velocity, pitch type and sequence
number as hover data. -/
theorem one_point_per_record_with_breaks_color_and_tooltip
    (inv : Invocation) (s : Stores) (fig : Figure) (s' : Stores)
    (hup : update_graph inv s = some (fig, s')) :
    fig.points = s'.data.map (fun r =>
      ({ x := r.horizontal, y := r.vertical, color := pitch_colors.lookup r.pitch,
         hover_velo := r.velo, hover_pitch := r.pitch, hover_pitchNo := r.pitchNo } :
          Point)) := by
  obtain ⟨-, rfl⟩ := update_graph_some hup
  rfl

/-- C3 witness: the idle callback over the C2 store produces exactly its
one record's point. -/
theorem one_point_per_record_with_breaks_color_and_tooltip_witness :
    update_graph idleInvocation c2store = some (buildFigure "" c2store, c2store) ∧
    (buildFigure "" c2store).points = c2store.data.map (fun r =>
      ({ x := r.horizontal, y := r.vertical, color := pitch_colors.lookup r.pitch,
         hover_velo := r.velo, hover_pitch := r.pitch, hover_pitchNo := r.pitchNo } :
          Point)) := by
  have hstep : stepStores idleInvocation c2store = some c2store := rfl
  have hup : update_graph idleInvocation c2store =
      some (buildFigure "" c2store, c2store) := by
    unfold update_graph
    rw [hstep]
    rfl
  exact ⟨hup, one_point_per_record_with_breaks_color_and_tooltip idleInvocation
    c2store (buildFigure "" c2store) c2store hup⟩

/-- C4: every variance row with both variances defined yields in the built
scene a circle shape centered at the two means whose half-extents are the
square roots of the two variances, drawn with the pitch type's mapped
color, a dotted (non-solid) dash pattern, and no fill. -/
theorem variance_circle_centered_at_means_with_sqrt_radii
    (inv : Invocation) (s : Stores) (fig : Figure) (s' : Stores)
    (v : VarianceRow) (hv vv : ℚ)
    (hup : update_graph inv s = some (fig, s'))
    (hmem : v ∈ variance_data s'.data)
    (hhv : v.horizontalVariance = some hv)
    (hvv : v.verticalVariance = some vv) :
    ∃ sh ∈ fig.variance_shapes,
      (sh.x0 + sh.x1) / 2 = (v.horizontalMean : ℝ) ∧
      (sh.x1 - sh.x0) / 2 = Real.sqrt (hv : ℝ) ∧
      (sh.y0 + sh.y1) / 2 = (v.verticalMean : ℝ) ∧
      (sh.y1 - sh.y0) / 2 = Real.sqrt (vv : ℝ) ∧
      sh.lineColor = pitch_colors.lookup v.pitch ∧
      sh.lineDash = "dot" ∧ sh.fillcolor = none ∧
      sh.lineWidth = 2 ∧ sh.layer = "below" := by
  obtain ⟨-, rfl⟩ := update_graph_some hup
  rcases v with ⟨q, hvar, vvar, vm, hm⟩
  simp only at hhv hvv
  subst hhv
  subst hvv
  refine ⟨{ x0 := (hm : ℝ) - Real.sqrt (hv : ℝ), x1 := (hm : ℝ) + Real.sqrt (hv : ℝ),
            y0 := (vm : ℝ) - Real.sqrt (vv : ℝ), y1 := (vm : ℝ) + Real.sqrt (vv : ℝ),
            lineColor := pitch_colors.lookup q, lineWidth := 2, lineDash := "dot",
            fillcolor := none, layer := "below" }, ?_, by ring, by ring, by ring,
          by ring, rfl, rfl, rfl, rfl, rfl⟩
  show _ ∈ (variance_data _).filterMap toVarianceShape
  exact List.mem_filterMap.mpr ⟨_, hmem, rfl⟩

/-- The C4 witness store: the C1 two-record data with empty annotations. -/
def c4store : Stores := { data := c1data, drawings := [], shadedCircles := [] }

/-- C4 witness: for the two-record Fastball store, the scene holds a dotted
unfilled circle centered at the means with half-extents `sqrt 2`. -/
theorem variance_circle_centered_at_means_with_sqrt_radii_witness :
    update_graph idleInvocation c4store = some (buildFigure "" c4store, c4store) ∧
    (mkVarianceRow c1data "Fastball").horizontalVariance = some 2 ∧
    (mkVarianceRow c1data "Fastball").verticalVariance = some 2 ∧
    (∃ sh ∈ (buildFigure "" c4store).variance_shapes,
      (sh.x0 + sh.x1) / 2 = ((mkVarianceRow c1data "Fastball").horizontalMean : ℝ) ∧
      (sh.x1 - sh.x0) / 2 = Real.sqrt ((2 : ℚ) : ℝ) ∧
      (sh.y0 + sh.y1) / 2 = ((mkVarianceRow c1data "Fastball").verticalMean : ℝ) ∧
      (sh.y1 - sh.y0) / 2 = Real.sqrt ((2 : ℚ) : ℝ) ∧
      sh.lineColor = pitch_colors.lookup (mkVarianceRow c1data "Fastball").pitch ∧
      sh.lineDash = "dot" ∧ sh.fillcolor = none ∧
      sh.lineWidth = 2 ∧ sh.layer = "below") := by
  have hstep : stepStores idleInvocation c4store = some c4store := rfl
  have hup : update_graph idleInvocation c4store =
      some (buildFigure "" c4store, c4store) := by
    unfold update_graph
    rw [hstep]
    rfl
  have hmem : mkVarianceRow c1data "Fastball" ∈ variance_data c4store.data := by
    have h1 : c1r1 ∈ c1data := by simp [c1data]
    have := @variance_data_covers c1data c1r1 h1
    simpa [c4store, c1r1] using this
  have hhv : (mkVarianceRow c1data "Fastball").horizontalVariance = some 2 := by
    norm_num [mkVarianceRow, sampleVariance, listMean, c1data, c1r1, c1r2]
  have hvv : (mkVarianceRow c1data "Fastball").verticalVariance = some 2 := by
    norm_num [mkVarianceRow, sampleVariance, listMean, c1data, c1r1, c1r2]
  exact ⟨hup, hhv, hvv, variance_circle_centered_at_means_with_sqrt_radii
    idleInvocation c4store (buildFigure "" c4store) c4store
    (mkVarianceRow c1data "Fastball") 2 2 hup hmem hhv hvv⟩

theorem seqNumbersOK_nil : seqNumbersOK [] := rfl

theorem seqNumbersOK_append (data : List PitchRecord) (r : PitchRecord)
    (h : seqNumbersOK data) (hr : r.pitchNo = data.length + 1) :
    seqNumbersOK (data ++ [r]) := by
  unfold seqNumbersOK at h ⊢
  rw [List.map_append, List.length_append, h]
  simp only [List.map_cons, List.map_nil, List.length_cons, List.length_nil]
  rw [List.range'_1_concat]
  simp [hr, Nat.add_comm]

theorem seqNumbersOK_dropLast (data : List PitchRecord) (h : seqNumbersOK data) :
    seqNumbersOK data.dropLast := by
  unfold seqNumbersOK at h ⊢
  rw [List.map_dropLast, h, List.length_dropLast]
  cases hn : data.length with
  | zero => simp [hn]
  | succ m =>
    rw [List.range'_1_concat, List.dropLast_concat]
    simp

theorem buttonStep_preserves_seqNumbersOK (button_id : Option String)
    (a b c d e f : ℕ) (vert horiz speed : ℚ) (pt dc : String) (cx cy cr : ℚ)
    (data : List PitchRecord) (dr : List Shape) (sc : List ShadedCircle)
    (h : seqNumbersOK data) :
    seqNumbersOK
      (buttonStep button_id a b c d e f vert horiz speed pt dc cx cy cr data dr sc).1 := by
  rcases buttonStep_data_cases button_id a b c d e f vert horiz speed pt dc cx cy cr
    data dr sc with hc | hc | hc | hc <;> rw [hc]
  · exact seqNumbersOK_append data _ h rfl
  · exact seqNumbersOK_dropLast data h
  · exact seqNumbersOK_nil
  · exact h

theorem stepStores_data (inv : Invocation) (s : Stores) (s' : Stores)
    (h : stepStores inv s = some s') : s'.data = (buttonStepStores inv s).data := by
  rw [stepStores_eq] at h
  obtain ⟨d2, -, h2⟩ := Option.map_eq_some'.mp h
  rw [← h2]

theorem stepStores_shadedCircles (inv : Invocation) (s : Stores) (s' : Stores)
    (h : stepStores inv s = some s') :
    s'.shadedCircles = (buttonStepStores inv s).shadedCircles := by
  rw [stepStores_eq] at h
  obtain ⟨d2, -, h2⟩ := Option.map_eq_some'.mp h
  rw [← h2]

theorem stepStores_preserves_seqNumbersOK (inv : Invocation) (s : Stores) (s' : Stores)
    (h : stepStores inv s = some s') (hseq : seqNumbersOK s.data) :
    seqNumbersOK s'.data := by
  rw [stepStores_data inv s s' h]
  exact buttonStep_preserves_seqNumbersOK _ _ _ _ _ _ _ _ _ _ _ _ _ _ _ _ _ _ hseq

theorem run_preserves_seqNumbersOK :
    ∀ (invs : List Invocation) (s s' : Stores),
      run invs s = some s' → seqNumbersOK s.data → seqNumbersOK s'.data
  | [], s, s', h, hseq => by
    simp only [run, Option.some.injEq] at h
    rw [← h]
    exact hseq
  | i :: is, s, s', h, hseq => by
    simp only [run] at h
    obtain ⟨s1, h1, h2⟩ := Option.bind_eq_some.mp h
    exact run_preserves_seqNumbersOK is s1 s' h2
      (stepStores_preserves_seqNumbersOK i s s1 h1 hseq)

/-- C5: in every state reachable by any sequence of callback invocations
from the empty stores, the live records' sequence numbers are exactly
`1..N`; a clear-all invocation leaves the record store empty, and an
add-point invocation on an empty record store produces the single record
with sequence number 1. -/
theorem sequence_numbers_always_one_to_N :
    (∀ (invs : List Invocation) (s' : Stores),
        run invs initialStores = some s' → seqNumbersOK s'.data) ∧
    (∀ (inv : Invocation) (s s' : Stores),
        inv.button_id = some "delete-all" → 0 < inv.delete_all_clicks →
        stepStores inv s = some s' → s'.data = []) ∧
    (∀ (inv : Invocation) (s s' : Stores),
        inv.button_id = some "add-point" → 0 < inv.add_clicks → s.data = [] →
        stepStores inv s = some s' →
        s'.data = [{ horizontal := inv.horizontal_movement,
                     vertical := inv.vertical_movement, velo := inv.pitch_speed,
                     pitch := inv.pitch_type, pitchNo := 1 }]) := by
  refine ⟨fun invs s' h => run_preserves_seqNumbersOK invs initialStores s' h
    seqNumbersOK_nil, fun inv s s' hb hc h => ?_, fun inv s s' hb hc hd h => ?_⟩
  · rw [stepStores_data inv s s' h]
    unfold buttonStepStores buttonStep
    rw [hb]
    split_ifs <;> simp_all
  · rw [stepStores_data inv s s' h]
    unfold buttonStepStores buttonStep
    rw [hb, hd]
    split_ifs <;> simp_all

/-- An add-point invocation used by several witnesses: one Fastball record
at horizontal 7, vertical 8, velocity 95, with no pending relayout shapes. -/
def addPointInvocation : Invocation :=
  { idleInvocation with
    button_id := some "add-point", add_clicks := 1,
    horizontal_movement := 7, vertical_movement := 8, pitch_speed := 95 }

/-- A clear-all invocation with no pending relayout shapes. -/
def deleteAllInvocation : Invocation :=
  { idleInvocation with button_id := some "delete-all", delete_all_clicks := 1 }

/-- C5 witness: add twice, clear, add again: the reachable store holds the
single record with sequence number 1, and its numbers read `1..N`. -/
theorem sequence_numbers_always_one_to_N_witness :
    run [addPointInvocation, addPointInvocation, deleteAllInvocation,
        addPointInvocation] initialStores =
      some { data := [{ horizontal := 7, vertical := 8, velo := 95,
                        pitch := "Fastball", pitchNo := 1 }],
             drawings := [], shadedCircles := [] } ∧
    seqNumbersOK [({ horizontal := 7, vertical := 8, velo := 95,
                     pitch := "Fastball", pitchNo := 1 } : PitchRecord)] := by
  constructor
  · rfl
  · exact sequence_numbers_always_one_to_N.1
      [addPointInvocation, addPointInvocation, deleteAllInvocation, addPointInvocation]
      { data := [{ horizontal := 7, vertical := 8, velo := 95,
                   pitch := "Fastball", pitchNo := 1 }],
        drawings := [], shadedCircles := [] } rfl

/-- C9: on a live store (sequence numbers `1..N`) a remove-last-point
invocation never raises (given any well-formed relayout payload — the
`'shapes'` entry, when present, is non-empty): on an empty record store it
is a no-op, and on a non-empty store it removes exactly the final record,
which carries the maximal sequence number. -/
theorem remove_last_point_total_and_removes_max_sequence
    (inv : Invocation) (s : Stores)
    (hb : inv.button_id = some "delete-recent")
    (hc : 0 < inv.delete_recent_clicks)
    (hrel : ∀ shapes, inv.relayout_shapes = some shapes → shapes ≠ [])
    (hseq : seqNumbersOK s.data) :
    ∃ s', stepStores inv s = some s' ∧
      (s.data = [] → s'.data = []) ∧
      (s.data ≠ [] →
        ∃ rl, s.data.getLast? = some rl ∧ s'.data = s.data.dropLast ∧
          s.data = s.data.dropLast ++ [rl] ∧
          ∀ r ∈ s.data, r.pitchNo ≤ rl.pitchNo) := by
  obtain ⟨d2, hd2⟩ : ∃ d2, handleDrawing inv.relayout_shapes inv.draw_color
      (buttonStepStores inv s).drawings = some d2 := by
    cases hr : inv.relayout_shapes with
    | none => exact ⟨_, handleDrawing_none _ _⟩
    | some shapes =>
      obtain ⟨sh, hsh⟩ := Option.ne_none_iff_exists'.mp
        (mt List.getLast?_eq_none_iff.mp (hrel shapes hr))
      exact ⟨_, handleDrawing_getLast_some _ _ hsh⟩
  have hstep : stepStores inv s = some
      { data := (buttonStepStores inv s).data, drawings := d2,
        shadedCircles := (buttonStepStores inv s).shadedCircles } := by
    rw [stepStores_eq, hd2, Option.map_some']
  refine ⟨_, hstep, fun hnil => ?_, fun hne => ?_⟩
  · show (buttonStepStores inv s).data = []
    unfold buttonStepStores buttonStep
    rw [hb, hnil]
    split_ifs <;> simp_all
  · have hdata : (buttonStepStores inv s).data = s.data.dropLast := by
      unfold buttonStepStores buttonStep
      rw [hb]
      split_ifs <;> simp_all
    obtain ⟨rl, hrl⟩ := Option.ne_none_iff_exists'.mp
      (mt List.getLast?_eq_none_iff.mp hne)
    have hsplit : s.data = s.data.dropLast ++ [rl] :=
      (List.dropLast_append_getLast? rl hrl).symm
    refine ⟨rl, hrl, hdata, hsplit, fun r hr => ?_⟩
    have hlen : 0 < s.data.length := List.length_pos.mpr hne
    have hlast : rl.pitchNo = s.data.length := by
      have hmap : (s.data.map (fun x => x.pitchNo)).getLast? = some rl.pitchNo := by
        rw [List.getLast?_map, hrl]
        rfl
      rw [hseq] at hmap
      obtain ⟨m, hm⟩ := Nat.exists_eq_succ_of_ne_zero (Nat.pos_iff_ne_zero.mp hlen)
      rw [hm, List.range'_1_concat, List.getLast?_concat] at hmap
      simp only [Option.some.injEq] at hmap
      omega
    have hrmem : r.pitchNo ∈ s.data.map (fun x => x.pitchNo) :=
      List.mem_map.mpr ⟨r, hr, rfl⟩
    rw [hseq] at hrmem
    have := List.mem_range'_1.mp hrmem
    omega

/-- A remove-last-point invocation with no pending relayout shapes. -/
def deleteRecentInvocation : Invocation :=
  { idleInvocation with
    button_id := some "delete-recent", delete_recent_clicks := 1 }

/-- C9 witness: removing the last point from the one-record C2 store keeps
totality and removes the highest-numbered record. -/
theorem remove_last_point_total_and_removes_max_sequence_witness :
    (∃ s', stepStores deleteRecentInvocation c2store = some s' ∧
      (c2store.data = [] → s'.data = []) ∧
      (c2store.data ≠ [] →
        ∃ rl, c2store.data.getLast? = some rl ∧ s'.data = c2store.data.dropLast ∧
          c2store.data = c2store.data.dropLast ++ [rl] ∧
          ∀ r ∈ c2store.data, r.pitchNo ≤ rl.pitchNo)) := by
  exact remove_last_point_total_and_removes_max_sequence deleteRecentInvocation
    c2store rfl (by norm_num [deleteRecentInvocation, idleInvocation])
    (by intro shapes h; cases h) rfl

theorem handleDrawing_cases (rel : Option (List Shape)) (dc : String)
    (ds d2 : List Shape) (h : handleDrawing rel dc ds = some d2) :
    d2 = ds ∨ ∃ shapes x, rel = some shapes ∧ x ∈ shapes ∧
      d2 = ds ++ [recolorShape dc x] := by
  cases rel with
  | none =>
    rw [handleDrawing_none] at h
    exact Or.inl (Option.some.inj h).symm
  | some shapes =>
    cases hl : shapes.getLast? with
    | none => rw [handleDrawing_getLast_none dc ds hl] at h; cases h
    | some sh =>
      rw [handleDrawing_getLast_some dc ds hl] at h
      exact Or.inr ⟨shapes, sh, rfl, List.mem_of_mem_getLast? hl,
        (Option.some.inj h).symm⟩

theorem buttonStepStores_drawings_cases (inv : Invocation) (s : Stores) :
    (buttonStepStores inv s).drawings = s.drawings ∨
      (buttonStepStores inv s).drawings = s.drawings.dropLast :=
  buttonStep_drawings_cases inv.button_id inv.add_clicks inv.delete_recent_clicks
    inv.delete_all_clicks inv.delete_last_drawing_clicks inv.add_shaded_circle_clicks
    inv.delete_most_recent_shaded_circle_clicks inv.horizontal_movement
    inv.vertical_movement inv.pitch_speed inv.pitch_type inv.draw_color
    inv.circle_x inv.circle_y inv.circle_radius s.data s.drawings s.shadedCircles

theorem stepStores_drawings_extends (inv : Invocation) (s s' : Stores)
    (h : stepStores inv s = some s') :
    ∃ n rest, n ≤ s.drawings.length ∧ s'.drawings = s.drawings.take n ++ rest ∧
      ∀ sh ∈ rest, ∃ shapes x, inv.relayout_shapes = some shapes ∧ x ∈ shapes ∧
        sh = recolorShape inv.draw_color x := by
  rw [stepStores_eq] at h
  obtain ⟨d2, h1, h2⟩ := Option.map_eq_some'.mp h
  have hd : s'.drawings = d2 := by rw [← h2]
  have hbase : (buttonStepStores inv s).drawings = s.drawings.take s.drawings.length ∨
      (buttonStepStores inv s).drawings = s.drawings.take (s.drawings.length - 1) := by
    rcases buttonStepStores_drawings_cases inv s with hb | hb
    · exact Or.inl (by rw [hb, List.take_length])
    · exact Or.inr (by rw [hb, List.dropLast_eq_take])
  rcases handleDrawing_cases _ _ _ _ h1 with h3 | ⟨shapes, x, hrel, hx, h3⟩ <;>
    rcases hbase with hb | hb
  · exact ⟨s.drawings.length, [], le_refl _,
      by rw [hd, h3, hb, List.append_nil], by simp⟩
  · exact ⟨s.drawings.length - 1, [], Nat.sub_le _ _,
      by rw [hd, h3, hb, List.append_nil], by simp⟩
  · refine ⟨s.drawings.length, [recolorShape inv.draw_color x], le_refl _,
      by rw [hd, h3, hb], fun sh hsh => ?_⟩
    rw [List.mem_singleton] at hsh
    exact ⟨shapes, x, hrel, hx, hsh⟩
  · refine ⟨s.drawings.length - 1, [recolorShape inv.draw_color x], Nat.sub_le _ _,
      by rw [hd, h3, hb], fun sh hsh => ?_⟩
    rw [List.mem_singleton] at hsh
    exact ⟨shapes, x, hrel, hx, hsh⟩

theorem run_drawings_extends :
    ∀ (invs : List Invocation) (s s' : Stores), run invs s = some s' →
      ∃ n rest, n ≤ s.drawings.length ∧ s'.drawings = s.drawings.take n ++ rest ∧
        ∀ sh ∈ rest, ∃ inv ∈ invs, ∃ shapes x,
          inv.relayout_shapes = some shapes ∧ x ∈ shapes ∧
          sh = recolorShape inv.draw_color x
  | [], s, s', h => by
    simp only [run, Option.some.injEq] at h
    exact ⟨s.drawings.length, [], le_refl _,
      by rw [← h, List.take_length, List.append_nil], by simp⟩
  | i :: is, s, s', h => by
    simp only [run] at h
    obtain ⟨s1, h1, h2⟩ := Option.bind_eq_some.mp h
    obtain ⟨n1, r1, hn1, hA, hP1⟩ := stepStores_drawings_extends i s s1 h1
    obtain ⟨n2, r2, hn2, hB, hP2⟩ := run_drawings_extends is s1 s' h2
    refine ⟨n2 ⊓ n1, List.take (n2 - (s.drawings.take n1).length) r1 ++ r2,
      le_trans (Nat.min_le_right _ _) hn1, ?_, fun sh hsh => ?_⟩
    · rw [hB, hA, List.take_append_eq_append_take, List.take_take, List.append_assoc]
    · rcases List.mem_append.mp hsh with hsh | hsh
      · obtain ⟨shapes, x, hrel, hx, hEq⟩ := hP1 sh (List.mem_of_mem_take hsh)
        exact ⟨i, List.mem_cons_self i is, shapes, x, hrel, hx, hEq⟩
      · obtain ⟨inv, hinv, shapes, x, hrel, hx, hEq⟩ := hP2 sh hsh
        exact ⟨inv, List.mem_cons_of_mem _ hinv, shapes, x, hrel, hx, hEq⟩

theorem get?_take_append_of_lt {α : Type _} (l rest : List α) (n i : ℕ)
    (hn : n ≤ l.length) (hi : i < n) : (l.take n ++ rest).get? i = l.get? i := by
  have hlen : i < (l.take n).length := by
    rw [List.length_take]
    omega
  rw [List.get?_eq_getElem?, List.get?_eq_getElem?,
    List.getElem?_append_left hlen, List.getElem?_take_of_lt hi]

/-- C7: a committed freehand shape's stroke color is stamped at commit
time — the draw color selected on that invocation — and never altered
afterwards: every commit appends the payload's last shape re-colored to
the committing invocation's draw color, and after any sequence of further
invocations the drawings list decomposes into a bounded literal prefix of
the old list, pointwise unchanged (colors included), followed only by
shapes that are themselves commits of the later invocations — each one
the re-coloring of a relayout-payload shape of some invocation of the
run, stamped with that invocation's own draw color — so no later action
(including changing the selected draw color) ever rewrites a previously
committed shape. -/
theorem committed_drawing_colors_immutable :
    (∀ (inv : Invocation) (s s' : Stores) (shapes : List Shape) (sh : Shape),
        inv.relayout_shapes = some shapes → shapes.getLast? = some sh →
        stepStores inv s = some s' →
        s'.drawings.getLast? =
          some { geometry := sh.geometry,
                 line := { color := inv.draw_color, width := 2 } }) ∧
    (∀ (invs : List Invocation) (s s' : Stores), run invs s = some s' →
        ∃ n rest, n ≤ s.drawings.length ∧
          s'.drawings = s.drawings.take n ++ rest ∧
          (∀ i, i < n → s'.drawings.get? i = s.drawings.get? i) ∧
          ∀ sh ∈ rest, ∃ inv ∈ invs, ∃ shapes x,
            inv.relayout_shapes = some shapes ∧ x ∈ shapes ∧
            sh = recolorShape inv.draw_color x ∧
            sh.line = { color := inv.draw_color, width := 2 }) := by
  refine ⟨fun inv s s' shapes sh hrel hlast hstep => ?_, fun invs s s' hrun => ?_⟩
  · rw [stepStores_eq, hrel,
      handleDrawing_getLast_some inv.draw_color _ hlast, Option.map_some'] at hstep
    rw [← Option.some.inj hstep]
    show ((buttonStepStores inv s).drawings ++
      [recolorShape inv.draw_color sh]).getLast? = _
    rw [List.getLast?_concat]
    rfl
  · obtain ⟨n, rest, hn, hdec, hP⟩ := run_drawings_extends invs s s' hrun
    refine ⟨n, rest, hn, hdec, fun i hi => ?_, fun sh hsh => ?_⟩
    · rw [hdec]
      exact get?_take_append_of_lt _ _ _ _ hn hi
    · obtain ⟨inv, hinv, shapes, x, hrel, hx, hEq⟩ := hP sh hsh
      exact ⟨inv, hinv, shapes, x, hrel, hx, hEq, by rw [hEq]; rfl⟩

/-- A drawing shape committed before the C7 witness scenario. -/
def c7shapeA : Shape := { geometry := "pathA", line := { color := "red", width := 2 } }

/-- The raw relayout shape of the C7 witness. -/
def c7newShape : Shape := { geometry := "pathB", line := { color := "blue", width := 1 } }

/-- The C7 witness store: one committed red drawing. -/
def c7store : Stores := { data := [], drawings := [c7shapeA], shadedCircles := [] }

/-- A commit invocation with the selected draw color changed to green. -/
def greenDrawInvocation : Invocation :=
  { idleInvocation with
    draw_color := "green", relayout_shapes := some [c7newShape] }

/-- The green-stamped commit produced in the C7 witness run. -/
def c7stamped : Shape :=
  { geometry := "pathB", line := { color := "green", width := 2 } }

/-- C7 witness: committing a new shape with draw color green stamps the
new shape green and leaves the old red shape pointwise untouched; the
list beyond the preserved prefix consists only of stamped commits of the
run's invocations. -/
theorem committed_drawing_colors_immutable_witness :
    run [greenDrawInvocation] c7store =
      some { data := [], drawings := [c7shapeA, c7stamped], shadedCircles := [] } ∧
    (∃ n rest, n ≤ c7store.drawings.length ∧
      ([c7shapeA, c7stamped] : List Shape) = c7store.drawings.take n ++ rest ∧
      (∀ i, i < n →
        ([c7shapeA, c7stamped] : List Shape).get? i = c7store.drawings.get? i) ∧
      ∀ sh ∈ rest, ∃ inv ∈ [greenDrawInvocation], ∃ shapes x,
        inv.relayout_shapes = some shapes ∧ x ∈ shapes ∧
        sh = recolorShape inv.draw_color x ∧
        sh.line = { color := inv.draw_color, width := 2 }) := by
  have hrun : run [greenDrawInvocation] c7store =
      some { data := [], drawings := [c7shapeA, c7stamped], shadedCircles := [] } := rfl
  exact ⟨hrun, committed_drawing_colors_immutable.2 [greenDrawInvocation] c7store _ hrun⟩

/-- The pending relayout shape of the C6 counterexample. -/
def c6shape : Shape := { geometry := "path6", line := { color := "blue", width := 1 } }

/-- An add-point invocation fired while the relayout payload still holds a
shape. -/
def c6inv : Invocation :=
  { addPointInvocation with relayout_shapes := some [c6shape] }

/-- C6 counterexample: an add-point action whose pending relayout payload
holds a shape mutates the drawings list too (the shape is re-colored and
appended), so the action does not leave both annotation lists unchanged
whatever the pending payload contains. -/
theorem single_action_single_mutation_counterexample :
    c6inv.button_id = some "add-point" ∧
    stepStores c6inv initialStores =
      some { data := [{ horizontal := 7, vertical := 8, velo := 95,
                        pitch := "Fastball", pitchNo := 1 }],
             drawings := [{ geometry := "path6",
                            line := { color := "red", width := 2 } }],
             shadedCircles := [] } ∧
    ([({ geometry := "path6", line := { color := "red", width := 2 } } : Shape)] ≠
      initialStores.drawings) := by
  refine ⟨rfl, rfl, ?_⟩
  simp [initialStores]

/-- C6 (amended): an add-point, remove-last-point or clear-all invocation
leaves both annotation lists (drawings and shaded circles) unchanged
provided the pending relayout payload holds no shapes; with a pending
shapes payload the callback additionally appends its last shape to the
drawings list (see the counterexample and C10). -/
theorem point_actions_leave_annotations_unchanged
    (inv : Invocation) (s s' : Stores)
    (hb : inv.button_id = some "add-point" ∨ inv.button_id = some "delete-recent" ∨
      inv.button_id = some "delete-all")
    (hrel : inv.relayout_shapes = none)
    (hstep : stepStores inv s = some s') :
    s'.drawings = s.drawings ∧ s'.shadedCircles = s.shadedCircles := by
  rw [stepStores_eq, hrel, handleDrawing_none, Option.map_some'] at hstep
  rw [← Option.some.inj hstep]
  refine ⟨?_, ?_⟩ <;>
  · unfold buttonStepStores buttonStep
    rcases hb with hb | hb | hb <;> rw [hb] <;> split_ifs <;> simp_all

/-- C6 amended witness: an add-point invocation with no pending shapes
leaves both annotation lists unchanged. -/
theorem point_actions_leave_annotations_unchanged_witness :
    stepStores addPointInvocation initialStores =
      some { data := [{ horizontal := 7, vertical := 8, velo := 95,
                        pitch := "Fastball", pitchNo := 1 }],
             drawings := [], shadedCircles := [] } ∧
    ({ data := [{ horizontal := 7, vertical := 8, velo := 95,
                  pitch := "Fastball", pitchNo := 1 }],
       drawings := [], shadedCircles := [] } : Stores).drawings =
        initialStores.drawings ∧
    ({ data := [{ horizontal := 7, vertical := 8, velo := 95,
                  pitch := "Fastball", pitchNo := 1 }],
       drawings := [], shadedCircles := [] } : Stores).shadedCircles =
        initialStores.shadedCircles := by
  have hstep : stepStores addPointInvocation initialStores =
      some { data := [{ horizontal := 7, vertical := 8, velo := 95,
                        pitch := "Fastball", pitchNo := 1 }],
             drawings := [], shadedCircles := [] } := rfl
  have h := point_actions_leave_annotations_unchanged addPointInvocation
    initialStores _ (Or.inl rfl) rfl hstep
  exact ⟨hstep, h.1, h.2⟩

/-- Drawing shapes populating the C8 counterexample store. -/
def c8shapeA : Shape := { geometry := "pathA8", line := { color := "red", width := 2 } }

/-- Second committed drawing of the C8 counterexample store. -/
def c8shapeB : Shape := { geometry := "pathB8", line := { color := "blue", width := 2 } }

/-- The pending relayout shape of the C8 counterexample. -/
def c8shapeC : Shape := { geometry := "pathC8", line := { color := "gold", width := 1 } }

/-- The C8 counterexample store: two committed drawings. -/
def c8store : Stores := { data := [], drawings := [c8shapeA, c8shapeB], shadedCircles := [] }

/-- A remove-last-drawing invocation fired while the relayout payload
still holds a shape. -/
def c8inv : Invocation :=
  { idleInvocation with
    button_id := some "delete-last-drawing", delete_last_drawing_clicks := 1,
    relayout_shapes := some [c8shapeC] }

/-- A remove-last-drawing invocation with no pending relayout shapes. -/
def deleteLastDrawingInvocation : Invocation :=
  { idleInvocation with
    button_id := some "delete-last-drawing", delete_last_drawing_clicks := 1 }

/-- C8 counterexample: a remove-last-drawing action fired with a pending
relayout shape does not leave the drawings list equal to its prior value
with the final element removed — the pending shape is re-colored and
appended after the removal. -/
theorem remove_last_drawing_counterexample :
    stepStores c8inv c8store =
      some { data := [],
             drawings := [c8shapeA,
               { geometry := "pathC8", line := { color := "red", width := 2 } }],
             shadedCircles := [] } ∧
    ([c8shapeA, ({ geometry := "pathC8", line := { color := "red", width := 2 } } :
        Shape)] ≠ c8store.drawings.dropLast) := by
  refine ⟨rfl, ?_⟩
  simp [c8store, c8shapeA, c8shapeB]

/-- C8 (amended): provided the pending relayout payload holds no shapes, a
remove-last-drawing invocation leaves the drawings list equal to its prior
value with the final element removed, and is a no-op when the list is
empty (`dropLast [] = []`). -/
theorem remove_last_drawing_drops_final
    (inv : Invocation) (s s' : Stores)
    (hb : inv.button_id = some "delete-last-drawing")
    (hc : 0 < inv.delete_last_drawing_clicks)
    (hrel : inv.relayout_shapes = none)
    (hstep : stepStores inv s = some s') :
    s'.drawings = s.drawings.dropLast ∧ s'.data = s.data ∧
      s'.shadedCircles = s.shadedCircles := by
  rw [stepStores_eq, hrel, handleDrawing_none, Option.map_some'] at hstep
  rw [← Option.some.inj hstep]
  refine ⟨?_, ?_, ?_⟩ <;>
  · unfold buttonStepStores buttonStep
    rw [hb]
    split_ifs <;> simp_all

/-- C8 amended witness: removing the last drawing from the two-drawing
store with no pending shapes leaves exactly the first drawing. -/
theorem remove_last_drawing_drops_final_witness :
    stepStores deleteLastDrawingInvocation c8store =
      some { data := [], drawings := [c8shapeA], shadedCircles := [] } ∧
    ({ data := [], drawings := [c8shapeA], shadedCircles := [] } : Stores).drawings =
      c8store.drawings.dropLast := by
  have hstep : stepStores deleteLastDrawingInvocation c8store =
      some { data := [], drawings := [c8shapeA], shadedCircles := [] } := rfl
  exact ⟨hstep, (remove_last_drawing_drops_final deleteLastDrawingInvocation c8store _
    rfl (by decide) rfl hstep).1⟩

/-- C10: on every invocation whose relayout payload holds a non-empty
shapes list — whatever the triggering prop — the last shape of the payload
is re-colored to the currently selected draw color and appended to the
(post-button-dispatch) drawings list. -/
theorem pending_relayout_shape_always_appended
    (inv : Invocation) (s : Stores) (shapes : List Shape) (sh : Shape)
    (hrel : inv.relayout_shapes = some shapes)
    (hlast : shapes.getLast? = some sh) :
    ∃ s', stepStores inv s = some s' ∧
      s'.drawings =
        (buttonStepStores inv s).drawings ++ [recolorShape inv.draw_color sh] ∧
      recolorShape inv.draw_color sh =
        { geometry := sh.geometry,
          line := { color := inv.draw_color, width := 2 } } := by
  rw [stepStores_eq, hrel,
    handleDrawing_getLast_some inv.draw_color _ hlast, Option.map_some']
  exact ⟨_, rfl, rfl, rfl⟩

/-- The raw relayout shape of the C10 witness. -/
def c10shape : Shape := { geometry := "path10", line := { color := "blue", width := 1 } }

/-- An idle-triggered invocation carrying a pending relayout shape and a
purple draw color. -/
def c10inv : Invocation :=
  { idleInvocation with
    draw_color := "purple", relayout_shapes := some [c10shape] }

/-- C10 witness: with no button action at all, the pending shape is still
re-colored purple and appended to the drawings list. -/
theorem pending_relayout_shape_always_appended_witness :
    ∃ s', stepStores c10inv initialStores = some s' ∧
      s'.drawings =
        (buttonStepStores c10inv initialStores).drawings ++
          [recolorShape c10inv.draw_color c10shape] ∧
      recolorShape c10inv.draw_color c10shape =
        { geometry := c10shape.geometry,
          line := { color := c10inv.draw_color, width := 2 } } :=
  pending_relayout_shape_always_appended c10inv initialStores [c10shape] c10shape rfl rfl

end CBC
